import Mathlib

/-!
Verification development for the busybusy automation engine.

The definitions below are a shallow embedding of the Python source:

* `app/utils/timezone_utils.py` — `parse_datetime`, `convert_utc_to_timezone`
* `app/services/budget_service.py` — `_fetch_all_with_cursor`,
  `_combine_hierarchical_data` (with its inner `sort_key`)
* `app/services/project_service.py` — `prepare_hierarchy` (with its inner
  `format_project_data`, `filter_children`, `process_hierarchy`)

Conventions of the embedding:

* Python `None` is `Option.none`; fields selected by the GraphQL queries are
  modelled as always present in a record, with `none` standing for a JSON
  null.  Python truthiness of optional strings (`None` and `""` are falsy)
  is `pyTruthyStr`; of optional numbers (`None` and `0` are falsy) is
  `pyTruthyNum`.
* Python numbers are modelled by the exact fraction type `PyNum`
  (none of the verified properties depend on floating-point rounding, and
  `float(...)` conversions are therefore the identity).
* Code that can raise an exception is modelled with `Except String` /
  `Option`; a raised exception is an `Except.error`.
* String scanning (`split`, `strip`, `startswith`, `int(...)`, `lower`) is
  implemented on `List Char` so that every definition evaluates by kernel
  reduction; the helpers mirror the Python `str` methods they are named
  after.
* Python `sorted` (a stable sort by key) is modelled by the stable insertion
  sort `sortBy`; for a total transitive boolean ordering a stable sort has a
  unique output, so this agrees with CPython.
-/

deriving instance DecidableEq for Except

/-! ## Python-style primitives -/

/-- Python truthiness of an optional string: `None` and `""` are falsy. -/
def pyTruthyStr : Option String → Bool
  | none => false
  | some s => !(s == "")

/-- Exact rational numbers standing for Python ints/floats: a numerator and a
positive denominator, kept normalized by the smart constructors so that
structural equality is value equality on every number the embedding builds. -/
structure PyNum where
  num : Int
  den : Nat
deriving DecidableEq

/-- Euclidean gcd with explicit fuel (the first argument strictly decreases,
so `a + 1` steps always reach the base case); fuel keeps the definition
structurally recursive and hence kernel-evaluable. -/
def gcdSteps : Nat → Nat → Nat → Nat
  | 0, _, b => b
  | fuel + 1, a, b => if a == 0 then b else gcdSteps fuel (b % a) a

/-- Gcd of two naturals via `gcdSteps`. -/
def pyGcd (a b : Nat) : Nat := gcdSteps (a + 1) a b

/-- Build a normalized `PyNum` from a numerator and a positive denominator. -/
def PyNum.make (n : Int) (d : Nat) : PyNum :=
  let g := pyGcd n.natAbs d
  if g == 0 then ⟨0, 1⟩ else ⟨n / (g : Int), d / g⟩

/-- The integer `n` as a `PyNum`. -/
def PyNum.ofInt (n : Int) : PyNum := ⟨n, 1⟩

instance : OfNat PyNum n := ⟨PyNum.ofInt n⟩

/-- Python `+` on numbers. -/
def PyNum.add (a b : PyNum) : PyNum :=
  PyNum.make (a.num * (b.den : Int) + b.num * (a.den : Int)) (a.den * b.den)

instance : Add PyNum := ⟨PyNum.add⟩

/-- Python `/` on numbers (true division; only ever used with a non-zero
divisor in the embedded code — the sole division is `budgetSeconds / 3600`). -/
def PyNum.div (a b : PyNum) : PyNum :=
  PyNum.make (a.num * (b.den : Int) * (if b.num < 0 then -1 else 1))
    (a.den * b.num.natAbs)

instance : Div PyNum := ⟨PyNum.div⟩

/-- Python truthiness of an optional number: `None` and `0` are falsy. -/
def pyTruthyNum : Option PyNum → Bool
  | none => false
  | some v => !(v == (0 : PyNum))

/-- Python `x or 0` applied to an optional number (also covers
`float(x or 0)`: the model works in exact arithmetic). -/
def pyOrZero : Option PyNum → PyNum
  | none => 0
  | some v => v

/-- The six ASCII whitespace characters Python `str.strip()` removes. -/
def isPySpace (c : Char) : Bool :=
  c == ' ' || c == '\t' || c == '\n' || c == '\r' || c == '\x0b' || c == '\x0c'

/-- Python `str.strip()` on a character list. -/
def stripChars (s : List Char) : List Char :=
  ((s.dropWhile isPySpace).reverse.dropWhile isPySpace).reverse

/-- If `sep` is a leading segment of `s`, the remainder of `s` after it. -/
def dropSepFront : List Char → List Char → Option (List Char)
  | [], s => some s
  | _ :: _, [] => none
  | c :: cs, x :: xs => if c == x then dropSepFront cs xs else none

/-- Python `str.startswith(sep)` on character lists. -/
def beginsWith (sep s : List Char) : Bool := (dropSepFront sep s).isSome

/-- Worker for `splitChars`; the fuel is the length of the remaining input
(at least one character is consumed per step, so it never runs out). -/
def splitCharsCore (sep : List Char) : Nat → List Char → List Char → List (List Char)
  | _, acc, [] => [acc.reverse]
  | 0, acc, s => [acc.reverse ++ s]
  | fuel + 1, acc, x :: xs =>
    match dropSepFront sep (x :: xs) with
    | some rest => acc.reverse :: splitCharsCore sep fuel [] rest
    | none => splitCharsCore sep fuel (x :: acc) xs

/-- Python `str.split(sep)` (with a non-empty separator) on character lists:
split at each non-overlapping occurrence, left to right; `""` yields `[""]`,
adjacent separators yield empty fields. -/
def splitChars (s sep : List Char) : List (List Char) :=
  match sep with
  | [] => [s]
  | _ :: _ => splitCharsCore sep s.length [] s

/-- Decimal digit value of a character, if it is a digit. -/
def digitVal? (c : Char) : Option Nat :=
  if '0' ≤ c ∧ c ≤ '9' then some (c.toNat - '0'.toNat) else none

/-- Parse a non-empty all-digit character list as a natural number. -/
def digitsToNat? : List Char → Option Nat
  | [] => none
  | cs => go cs 0
where
  go : List Char → Nat → Option Nat
    | [], acc => some acc
    | c :: cs, acc =>
      match digitVal? c with
      | some d => go cs (acc * 10 + d)
      | none => none

/-- Python `int(s)`: optional surrounding whitespace, optional single sign,
then decimal digits; anything else raises `ValueError` (modelled as `none`). -/
def pyIntChars? (s : List Char) : Option Int :=
  let t := stripChars s
  match t with
  | '+' :: ds => (digitsToNat? ds).map (fun n => (n : Int))
  | '-' :: ds => (digitsToNat? ds).map (fun n => -(n : Int))
  | ds => (digitsToNat? ds).map (fun n => (n : Int))

/-- Zero-pad a natural number to two digits, as `f"{n:02d}"` does for `n ≥ 0`. -/
def pad2 (n : Nat) : String :=
  if n < 10 then "0" ++ toString n else toString n

/-- Zero-pad to four digits, as `strftime` `%Y` does. -/
def pad4 (n : Nat) : String :=
  let s := toString n
  String.mk (List.replicate (4 - s.length) '0') ++ s

/-- Python `f"{n:02d}"` for a possibly negative `int`: the pad counts the
sign, so `-5` renders as `"-5"`. -/
def pad2Int (n : Int) : String :=
  if 0 ≤ n ∧ n < 10 then "0" ++ toString n else toString n

/-! ## Timezone formatter (`app/utils/timezone_utils.py`) -/

/-- A `datetime.datetime` value as produced by `strptime` (naive, no tzinfo). -/
structure PyDateTime where
  year : Nat
  month : Nat
  day : Nat
  hour : Nat
  minute : Nat
  second : Nat
  microsecond : Nat
deriving DecidableEq

/-- Whether `y` is a Gregorian leap year (as `datetime` uses). -/
def isLeapYear (y : Nat) : Bool :=
  y % 4 == 0 && (y % 100 != 0 || y % 400 == 0)

/-- Days in month `m` of year `y` (as `datetime` validates). -/
def daysInMonth (y m : Nat) : Nat :=
  if m == 2 then (if isLeapYear y then 29 else 28)
  else if m == 4 || m == 6 || m == 9 || m == 11 then 30
  else 31

/-- A 1-2 digit numeric field of `strptime` (`%m`, `%d`, `%H`, `%M`, `%S`). -/
def parseField2? (s : List Char) : Option Nat :=
  if s.length == 1 || s.length == 2 then digitsToNat? s else none

/-- The `%Y` field of `strptime`: exactly four digits. -/
def parseYear? (s : List Char) : Option Nat :=
  if s.length == 4 then digitsToNat? s else none

/-- Shared assembly and range validation of `datetime.strptime`:
month 1-12, day within the month, hour ≤ 23, minute and second ≤ 59, year
1-9999 (`datetime` rejects anything else with `ValueError`). -/
def mkPyDateTime? (y mo d h mi se usec : Nat) : Option PyDateTime :=
  if 1 ≤ mo && mo ≤ 12 && 1 ≤ d && d ≤ daysInMonth y mo
      && h ≤ 23 && mi ≤ 59 && se ≤ 59 && 1 ≤ y && y ≤ 9999 then
    some ⟨y, mo, d, h, mi, se, usec⟩
  else none

/-- Model of `datetime.strptime(dt, "%Y-%m-%dT%H:%M:%S")`: the exact basic ISO shape,
no fractional seconds, no zone suffix.  `none` models the `ValueError`. -/
def parseBasicIso (s : String) : Option PyDateTime :=
  match splitChars s.data ['T'] with
  | [ds, ts] =>
    match splitChars ds ['-'], splitChars ts [':'] with
    | [ys, ms, dds], [hs, mins, secs] =>
      match parseYear? ys, parseField2? ms, parseField2? dds,
            parseField2? hs, parseField2? mins, parseField2? secs with
      | some y, some mo, some d, some h, some mi, some se =>
        mkPyDateTime? y mo d h mi se 0
      | _, _, _, _, _, _ => none
    | _, _ => none
  | _ => none

/-- The `%f` field of `strptime`: one to six digits of fraction, scaled to
microseconds (`"123"` means 123000 µs). -/
def parseFrac? (s : List Char) : Option Nat :=
  if 1 ≤ s.length && s.length ≤ 6 then
    (digitsToNat? s).map (fun n => n * 10 ^ (6 - s.length))
  else none

/-- Model of `datetime.strptime(dt, "%Y-%m-%dT%H:%M:%S.%f")`. -/
def parseIsoWithFrac (s : String) : Option PyDateTime :=
  match splitChars s.data ['T'] with
  | [ds, ts] =>
    match splitChars ds ['-'], splitChars ts [':'] with
    | [ys, ms, dds], [hs, mins, secfrac] =>
      match splitChars secfrac ['.'] with
      | [secs, fs] =>
        match parseYear? ys, parseField2? ms, parseField2? dds,
              parseField2? hs, parseField2? mins, parseField2? secs,
              parseFrac? fs with
        | some y, some mo, some d, some h, some mi, some se, some usec =>
          mkPyDateTime? y mo d h mi se usec
        | _, _, _, _, _, _, _ => none
      | _ => none
    | _, _ => none
  | _ => none

/-- The helper `parse_datetime` of `timezone_utils.py`: strips every trailing `Z` from
the input (and from each format, which removes the `Z` suffixes), then tries
the formats in order — with fractional seconds first, then the basic shape. -/
def parseDatetime (s : String) : Option PyDateTime :=
  let stripped := String.mk ((s.data.reverse.dropWhile (fun c => c == 'Z')).reverse)
  match parseIsoWithFrac stripped with
  | some dt => some dt
  | none => parseBasicIso stripped

/-- Days since 0000-03-01 of a civil date (the standard days-from-civil
computation; all quantities are non-negative for years ≥ 1). -/
def daysFromCivil (y m d : Nat) : Nat :=
  let ys := if m ≤ 2 then y - 1 else y
  let era := ys / 400
  let yoe := ys % 400
  let mp := (m + 9) % 12
  let doy := (153 * mp + 2) / 5 + d - 1
  let doe := yoe * 365 + yoe / 4 - yoe / 100 + doy
  era * 146097 + doe

/-- Civil date of a day count since 0000-03-01 (inverse of `daysFromCivil`). -/
def civilFromDays (z : Int) : Int × Nat × Nat :=
  let era := z.ediv 146097
  let doe := (z - era * 146097).toNat
  let yoe := (doe - doe / 1460 + doe / 36524 - doe / 146096) / 365
  let y := era * 400 + yoe
  let doy := doe - (365 * yoe + yoe / 4 - yoe / 100)
  let mp := (5 * doy + 2) / 153
  let d := doy - (153 * mp + 2) / 5 + 1
  let m := if mp < 10 then mp + 3 else mp - 9
  (if m ≤ 2 then y + 1 else y, m, d)

/-- Model of `utc_dt + timedelta(minutes=delta)`: exact calendar arithmetic with
day/month/year carry.  `none` models the `OverflowError` a `datetime`
outside years 1-9999 raises (caught by the caller). -/
def addMinutes (dt : PyDateTime) (delta : Int) : Option PyDateTime :=
  let total : Int :=
    (daysFromCivil dt.year dt.month dt.day : Int) * 1440
      + dt.hour * 60 + dt.minute + delta
  let days := total.ediv 1440
  let rem := (total.emod 1440).toNat
  match civilFromDays days with
  | (y, m, d) =>
    if 1 ≤ y ∧ y ≤ 9999 then
      some ⟨y.toNat, m, d, rem / 60, rem % 60, dt.second, dt.microsecond⟩
    else none

/-- Model of `local_dt.strftime("%Y-%m-%dT%H:%M:%S")` (zero-padded fields). -/
def strftimeBasic (dt : PyDateTime) : String :=
  pad4 dt.year ++ "-" ++ pad2 dt.month ++ "-" ++ pad2 dt.day ++ "T"
    ++ pad2 dt.hour ++ ":" ++ pad2 dt.minute ++ ":" ++ pad2 dt.second

/-- The function `convert_utc_to_timezone` of `timezone_utils.py`.  Empty input or zone
gives `""`; the timestamp is parsed with the strict basic format only
(`datetime.strptime(dt, "%Y-%m-%dT%H:%M:%S")` — not `parse_datetime`); the
zone must start with `GMT` after stripping; the offset string (a `+` is
prepended when no sign is present) must split on `:` into exactly two
`int()`-parseable parts; every failure path returns the sentinel `""`.
On success the signed offset in minutes is added and the result is rendered
as `%Y-%m-%dT%H:%M:%S.000` followed by the original sign and zero-padded
offset components. -/
def convertUtcToTimezone (dt tzStr : String) : String :=
  if dt = "" ∨ tzStr = "" then ""
  else
    match parseBasicIso dt with
    | none => ""
    | some udt =>
      let tz := stripChars tzStr.data
      if beginsWith ['G', 'M', 'T'] tz then
        let offRaw := stripChars (tz.drop 3)
        let offStr :=
          if beginsWith ['+'] offRaw ∨ beginsWith ['-'] offRaw then offRaw
          else '+' :: offRaw
        let sign := offStr.take 1
        match splitChars (offStr.drop 1) [':'] with
        | [hs, ms] =>
          match pyIntChars? hs, pyIntChars? ms with
          | some hours, some minutes =>
            let totalMinutes := (hours * 60 + minutes) * (if sign = ['+'] then 1 else -1)
            match addMinutes udt totalMinutes with
            | none => ""
            | some ldt =>
              strftimeBasic ldt ++ ".000" ++ String.mk sign
                ++ pad2Int hours ++ ":" ++ pad2Int minutes
          | _, _ => ""
        | _ => ""
      else ""

/-! ## Paginator (`_fetch_all_with_cursor` of `budget_service.py`) -/

/-- A record of one page, as the pagination loop sees it: an opaque payload
plus the `cursor` field the loop reads (`none` when absent or null). -/
structure PageRecord where
  payload : String
  cursor : Option String
deriving DecidableEq

/-- The loop of `_fetch_all_with_cursor`, over the finite sequence of pages the source
would yield on successive requests.  An empty page stops the loop; a page is
followed by the next one only when it is full (exactly `batchSize` records)
and its last record carries a truthy cursor — `data[-1].get("cursor") if
len(data) == self.batch_size else None`, then `if not cursor: break`. -/
def fetchAllWithCursor (batchSize : Nat) : List (List PageRecord) → List PageRecord
  | [] => []
  | page :: rest =>
    if page.isEmpty then []
    else
      let nextCursor : Option String :=
        if page.length = batchSize then (page.getLast?).bind PageRecord.cursor else none
      if pyTruthyStr nextCursor then page ++ fetchAllWithCursor batchSize rest
      else page

/-! ## Stable sorting (Python `sorted`) -/

/-- Insert `x` before the first element `y` with `le x y`; used by `sortBy`. -/
def insertOrd (le : α → α → Bool) (x : α) : List α → List α
  | [] => [x]
  | y :: ys => if le x y then x :: y :: ys else y :: insertOrd le x ys

/-- Stable insertion sort: the model of Python `sorted` (ascending, stable).
For a total, transitive boolean ordering a stable sort has a unique output,
so this agrees with the CPython implementation. -/
def sortBy (le : α → α → Bool) : List α → List α
  | [] => []
  | x :: xs => insertOrd le x (sortBy le xs)

/-- Python `str` `<` : lexicographic comparison by code point. -/
def charListLt : List Char → List Char → Bool
  | [], [] => false
  | [], _ :: _ => true
  | _ :: _, [] => false
  | a :: as, b :: bs => if a < b then true else if b < a then false else charListLt as bs

/-- Python `<` on strings. -/
def strLt (a b : String) : Bool := charListLt a.data b.data

/-- Python `<=` on strings (for the stable sort of tuple keys). -/
def strLe (a b : String) : Bool := !(strLt b a)

/-- Python `str.lower()` (the embedded data is ASCII, where `Char.toLower`
agrees with Python). -/
def pyLower (s : String) : String := String.mk (s.data.map Char.toLower)

/-- Python `<=` on tuples/lists of strings: lexicographic, a proper leading
segment comparing as smaller. -/
def listStrLe : List String → List String → Bool
  | [], _ => true
  | _ :: _, [] => false
  | a :: as, b :: bs => if strLt a b then true else if strLt b a then false else listStrLe as bs

/-! ## Multi-source aggregator (`_combine_hierarchical_data` of
`budget_service.py`) -/

/-- A `budgetHours` record: the fields the aggregator reads.  `budgetSeconds`
is nullable in the source data. -/
structure BudgetHoursRec where
  projectId : Option String
  costCodeId : Option String
  budgetSeconds : Option PyNum
deriving DecidableEq

/-- A `budgetCosts` record: the fields the aggregator reads. -/
structure BudgetCostRec where
  projectId : Option String
  costCodeId : Option String
  costBudget : Option PyNum
deriving DecidableEq

/-- A `progressBudgets` record: the fields the aggregator reads. -/
structure ProgressRec where
  id : String
  projectId : Option String
  costCodeId : Option String
  value : Option PyNum
  quantity : Option PyNum
deriving DecidableEq

/-- A `costCodes` record: the fields the aggregator reads. -/
structure CostCodeRec where
  id : String
  title : Option String
  costCode : Option String
deriving DecidableEq

/-- The per-project entry of `project_info` (hierarchical title already
built, plus the archive marker). -/
structure ProjInfo where
  title : String
  archivedOn : Option String
deriving DecidableEq

/-- One output row of `_combine_hierarchical_data`. -/
structure AggregateRow where
  id : String
  project_id : String
  project_title : String
  cost_code_id : Option String
  cost_code_title : String
  labor_hours : PyNum
  labor_cost : PyNum
  progress_value : PyNum
  quantity : PyNum
  status : String
deriving DecidableEq

/-- Model of `h.get('budgetSeconds', 0) / 3600` on a record whose `budgetSeconds` key
is present: a null value is Python `None`, and `None / 3600` raises
`TypeError`. -/
def secondsToHours : Option PyNum → Except String PyNum
  | some s => .ok (s / (3600 : PyNum))
  | none => .error "TypeError: unsupported operand types for division: NoneType and int"

/-- The expression `sum(h.get('budgetSeconds', 0) / 3600 for h in hours if
h.get('projectId') == proj_id and not h.get('costCodeId'))` — the
project-level hours of line 297; the first null `budgetSeconds` among the
matching records raises. -/
def projectHoursSum (hours : List BudgetHoursRec) (pid : String) : Except String PyNum :=
  (hours.filter (fun h => h.projectId == some pid && !(pyTruthyStr h.costCodeId))).foldlM
    (fun acc h => (secondsToHours h.budgetSeconds).map (fun v => acc + v)) (0 : PyNum)

/-- The expression `sum(float(c.get('costBudget', 0) or 0) for c in costs if
c.get('projectId') == proj_id and not c.get('costCodeId'))` — the
project-level costs of line 299 (never raises: `or 0` absorbs nulls). -/
def projectCostsSum (costs : List BudgetCostRec) (pid : String) : PyNum :=
  (costs.filter (fun c => c.projectId == some pid && !(pyTruthyStr c.costCodeId))).foldl
    (fun acc c => acc + pyOrZero c.costBudget) (0 : PyNum)

/-- The `project_cost_codes` set: cost-code ids of progress records of this
project with a truthy `costCodeId` and a truthy `value` or `quantity`.
CPython iterates a `set` in an unspecified order; the model fixes
first-insertion order, which downstream code only consumes as a set (the
final output is re-sorted). -/
def addCostCodeId (pid : String) (acc : List String) (p : ProgressRec) : List String :=
  if p.projectId == some pid && pyTruthyStr p.costCodeId
      && (pyTruthyNum p.value || pyTruthyNum p.quantity) then
    match p.costCodeId with
    | some cc => if cc ∈ acc then acc else acc ++ [cc]
    | none => acc
  else acc

/-- The `project_cost_codes` set as a fold of `addCostCodeId`. -/
def projectCostCodeIds (progress : List ProgressRec) (pid : String) : List String :=
  progress.foldl (addCostCodeId pid) []

/-- Model of `cost_code_map` built by the dict comprehension, followed by
`cost_code_map[cc_id]`: a dict comprehension keeps the last record per id. -/
def costCodeMapLookup (ccs : List CostCodeRec) (i : String) : Option CostCodeRec :=
  ccs.reverse.find? (fun cc => cc.id == i)

/-- Rendering of an optional string inside an f-string with a `.get(k, '')`
default: the key is present in the fetched records, so a null renders as
Python `"None"`. -/
def pyFStr : Option String → String
  | some s => s
  | none => "None"

/-- Python `str.strip()`. -/
def pyStrip (s : String) : String := String.mk (stripChars s.data)

/-- The `'Archived' if proj_data.get('archivedOn') else 'Active'` status. -/
def projStatus (pd : ProjInfo) : String :=
  if pyTruthyStr pd.archivedOn then "Archived" else "Active"

/-- The base project-level row appended first for every project (lines
302-313): no cost code, project-level sums, zero progress and quantity. -/
def baseRow (pid : String) (pd : ProjInfo) (ph pc : PyNum) : AggregateRow :=
  { id := "", project_id := pid, project_title := pd.title,
    cost_code_id := none, cost_code_title := "",
    labor_hours := ph, labor_cost := pc,
    progress_value := 0, quantity := 0, status := projStatus pd }

/-- The cost-code-level rows of one project (lines 326-352): for each id in
`project_cost_codes` that is present in `cost_code_map`, the first matching
progress record exists by construction (so the `if cc_progress:` guard
passes), and the first matching hours/costs records contribute defaults-to-0
numeric fields; the cost-code label joins `costCode` and `title`. -/
def costCodeRows (hours : List BudgetHoursRec) (costs : List BudgetCostRec)
    (progress : List ProgressRec) (ccs : List CostCodeRec)
    (pid : String) (pd : ProjInfo) : List AggregateRow :=
  (projectCostCodeIds progress pid).filterMap (fun ccId =>
    match costCodeMapLookup ccs ccId with
    | none => none
    | some ccRec =>
      match progress.find? (fun p => p.projectId == some pid && p.costCodeId == some ccId) with
      | none => none
      | some ccProg =>
        let ccHours := hours.find? (fun h => h.projectId == some pid && h.costCodeId == some ccId)
        let ccCosts := costs.find? (fun c => c.projectId == some pid && c.costCodeId == some ccId)
        some
          { id := ccProg.id, project_id := pid, project_title := pd.title,
            cost_code_id := some ccId,
            cost_code_title := pyStrip (pyFStr ccRec.costCode ++ " " ++ pyFStr ccRec.title),
            labor_hours :=
              match ccHours with
              | some h =>
                match h.budgetSeconds with
                | some s => s / (3600 : PyNum)
                | none => 0
              | none => 0,
            labor_cost :=
              match ccCosts with
              | some c => pyOrZero c.costBudget
              | none => 0,
            progress_value := pyOrZero ccProg.value,
            quantity := pyOrZero ccProg.quantity,
            status := projStatus pd })

/-- The main loop of `_combine_hierarchical_data` (lines 295-352), before the
final sort: one base row then the cost-code rows per project, in
`project_info` order; a `TypeError` from a null project-level
`budgetSeconds` aborts the whole combination. -/
def combineProjects (hours : List BudgetHoursRec) (costs : List BudgetCostRec)
    (progress : List ProgressRec) (ccs : List CostCodeRec) :
    List (String × ProjInfo) → Except String (List AggregateRow)
  | [] => .ok []
  | (pid, pd) :: rest =>
    match projectHoursSum hours pid with
    | .error e => .error e
    | .ok ph =>
      let block := baseRow pid pd ph (projectCostsSum costs pid)
        :: costCodeRows hours costs progress ccs pid pd
      match combineProjects hours costs progress ccs rest with
      | .error e => .error e
      | .ok tail => .ok (block ++ tail)

/-- The inner `sort_key` (lines 355-357): the lowercased segments of
`project_title` split on `" / "`, followed by the lowercased
`cost_code_title`. -/
def sortKey (r : AggregateRow) : List String :=
  ((splitChars r.project_title.data [' ', '/', ' ']).map
      (fun p => pyLower (String.mk p)))
    ++ [pyLower r.cost_code_title]

/-- The boolean ordering `sorted` uses on rows: tuple comparison of keys. -/
def aggRowLe (a b : AggregateRow) : Bool := listStrLe (sortKey a) (sortKey b)

/-- The function `_combine_hierarchical_data` (lines 287-359): combine per project, then
`sorted(combined_data, key=sort_key)`. -/
def combineHierarchicalData (hours : List BudgetHoursRec) (costs : List BudgetCostRec)
    (progress : List ProgressRec) (ccs : List CostCodeRec)
    (projectInfo : List (String × ProjInfo)) : Except String (List AggregateRow) :=
  match combineProjects hours costs progress ccs projectInfo with
  | .error e => .error e
  | .ok rows => .ok (sortBy aggRowLe rows)

/-! ## Tree flattener (`prepare_hierarchy` of `project_service.py`) -/

/-- A project node of the fetched hierarchy: the fields `prepare_hierarchy`
reads.  The `children` list nests recursively; the GraphQL root query bounds
the fetched nesting, but the flattener itself is defined on arbitrary trees.
The remaining formatted fields (`projectInfo` address data, group name,
timestamps) are copied verbatim from the node into the flat row and carry no
logic, so the row model keeps the fields the verified properties are about:
`id`, the 7-slot path, and `status`. -/
inductive HierNode where
  | mk (id : String) (title : String) (archivedOn : Option String) (children : List HierNode)

/-- The `id` field of a node. -/
def HierNode.id : HierNode → String
  | .mk i _ _ _ => i

/-- The `title` field of a node. -/
def HierNode.title : HierNode → String
  | .mk _ t _ _ => t

/-- The `archivedOn` field of a node (`none` for null). -/
def HierNode.archivedOn : HierNode → Option String
  | .mk _ _ a _ => a

/-- The `children` field of a node. -/
def HierNode.children : HierNode → List HierNode
  | .mk _ _ _ cs => cs

/-- The keep test of `filter_children` (lines 227-237): under the archived
view a child is kept iff `child.get('archivedOn')` is truthy, under the
active view iff it is falsy. -/
def keepChild (isArchived : Bool) (c : HierNode) : Bool :=
  if isArchived then pyTruthyStr c.archivedOn else !(pyTruthyStr c.archivedOn)

mutual

/-- The function `filter_children` (lines 219-241): replace the node's children by the
kept ones, each recursively filtered (a node without children is returned
unchanged, which the general equation also yields). -/
def filterChildren (isArchived : Bool) : HierNode → HierNode
  | .mk i t a cs => .mk i t a (filterKept isArchived cs)

/-- The `for child in children` loop of `filter_children`: keep a child iff
`keepChild`, recursing into the kept ones. -/
def filterKept (isArchived : Bool) : List HierNode → List HierNode
  | [] => []
  | c :: rest =>
    if keepChild isArchived c then filterChildren isArchived c :: filterKept isArchived rest
    else filterKept isArchived rest

end

/-- Python list item assignment `names[i] = v`: `none` models the
`IndexError` raised when `i` is out of range. -/
def listSet (names : List String) (i : Nat) (v : String) : Option (List String) :=
  if i < names.length then some (names.set i v) else none

/-- The cleaning step of `format_project_data` (line 189):
`name.strip() if name else ''`. -/
def cleanName (n : String) : String := if n == "" then "" else pyStrip n

/-- One flat output row (`format_project_data`, lines 192-214): the node id,
the cleaned path padded with `''` to exactly 7 slots, and a status that the
code derives from the requested view (`"Archived" if is_archived else
"Active"`). -/
structure FlatRow where
  id : String
  path : List String
  status : String
deriving DecidableEq

/-- Model of `format_project_data` on a well-shaped node: clean each path name, pad
with `''` to 7, truncate to 7. -/
def formatProjectData (isArchived : Bool) (node : HierNode) (names : List String) : FlatRow :=
  let cleaned := (names.map cleanName) ++ List.replicate (7 - names.length) ""
  { id := node.id, path := cleaned.take 7,
    status := if isArchived then "Archived" else "Active" }

/-- Sequential mapping with Python exception semantics: the first raised
error aborts and propagates. -/
def mapExcept (f : α → Except String β) : List α → Except String (List β)
  | [] => .ok []
  | x :: xs =>
    match f x with
    | .error e => .error e
    | .ok y =>
      match mapExcept f xs with
      | .error e => .error e
      | .ok ys => .ok (y :: ys)

/-- The child ordering of `process_hierarchy` (line 263):
`sorted(children, key=lambda x: x.get('title', ''))`. -/
def titleLe (c d : HierNode) : Bool := strLe c.title d.title

/-- The recursion of `process_hierarchy` (lines 243-268), structured on an
explicit fuel so that it evaluates by kernel reduction.  Every call made by
the embedding has `fuel = names.length - depth`; the recursive call keeps
that invariant (`listSet` preserves the length and `depth` increases by
one), and when the fuel is `0` then `depth ≥ names.length`, which is exactly
the case where `current_names[depth] = ...` raises `IndexError` — so the
fuel-`0` equation returns the very error the `listSet` test would.  At each
node: write the title into the path slot `depth`, emit the row for the node
itself (its own archived state is not consulted), filter the whole subtree
with `filter_children`, then recurse into the kept children in ascending
title order, propagating any exception. -/
def processHierarchyGo (isArchived : Bool) :
    Nat → HierNode → Nat → List String → Except String (List FlatRow)
  | 0, _, _, _ => .error "IndexError: list assignment index out of range"
  | fuel + 1, node, depth, names =>
    match listSet names depth node.title with
    | none => .error "IndexError: list assignment index out of range"
    | some current =>
      let row := formatProjectData isArchived node current
      let filtered := filterChildren isArchived node
      let kids := sortBy titleLe filtered.children
      match mapExcept (fun c => processHierarchyGo isArchived fuel c (depth + 1) current) kids with
      | .error e => .error e
      | .ok rss => .ok (row :: rss.flatten)

/-- Model of `process_hierarchy(project, depth, project_names)`. -/
def processHierarchy (isArchived : Bool) (node : HierNode) (depth : Nat)
    (names : List String) : Except String (List FlatRow) :=
  processHierarchyGo isArchived (names.length - depth) node depth names

/-- The function `prepare_hierarchy(projects, is_archived)` (lines 270-280): flatten each
root at depth 0 with a blank 7-slot path, concatenating the results; the
surrounding `try/except` turns any raised exception into an empty result
for the whole call. -/
def prepareHierarchy (projects : List HierNode) (isArchived : Bool) : List FlatRow :=
  match mapExcept (fun p => processHierarchy isArchived p 0 (List.replicate 7 "")) projects with
  | .ok rss => rss.flatten
  | .error _ => []

/-- Ghost-instrumented copy of `processHierarchyGo` that records, with every
emitted row, the recursion depth of the node that produced it (the row's
true tree depth minus one).  It differs from `processHierarchyGo` only in
pairing each row with that depth; the claim theorem proves that erasing the
depths gives back `processHierarchyGo` exactly, so statements about the
recorded depth are statements about the real traversal. -/
def processHierarchyDepthGo (isArchived : Bool) :
    Nat → HierNode → Nat → List String → Except String (List (FlatRow × Nat))
  | 0, _, _, _ => .error "IndexError: list assignment index out of range"
  | fuel + 1, node, depth, names =>
    match listSet names depth node.title with
    | none => .error "IndexError: list assignment index out of range"
    | some current =>
      let row := formatProjectData isArchived node current
      let filtered := filterChildren isArchived node
      let kids := sortBy titleLe filtered.children
      match mapExcept (fun c => processHierarchyDepthGo isArchived fuel c (depth + 1) current) kids with
      | .error e => .error e
      | .ok rss => .ok ((row, depth) :: rss.flatten)

/-- The depth-recording counterpart of `processHierarchy`. -/
def processHierarchyDepth (isArchived : Bool) (node : HierNode) (depth : Nat)
    (names : List String) : Except String (List (FlatRow × Nat)) :=
  processHierarchyDepthGo isArchived (names.length - depth) node depth names

/-- The depth-recording counterpart of `prepareHierarchy`. -/
def flattenWithDepth (projects : List HierNode) (isArchived : Bool) : List (FlatRow × Nat) :=
  match mapExcept (fun p => processHierarchyDepth isArchived p 0 (List.replicate 7 "")) projects with
  | .ok rss => rss.flatten
  | .error _ => []

/-! ## Derived notions and concrete inputs used by the claim theorems -/

/-- The EntityKey of an output row: `(primary_id, secondary_id)`. -/
def entityKey (r : AggregateRow) : String × Option String :=
  (r.project_id, r.cost_code_id)

/-- Three base projects titled `Lot 2`, `Lot 10`, `Lot 1`. -/
def lotProjects : List (String × ProjInfo) :=
  [("p1", ⟨"Lot 2", none⟩), ("p2", ⟨"Lot 10", none⟩), ("p3", ⟨"Lot 1", none⟩)]

/-- A project-level hours record whose `budgetSeconds` is null. -/
def nullSecondsHours : BudgetHoursRec := ⟨some "p1", none, none⟩

/-- A cost-code-level hours record whose `budgetSeconds` is null. -/
def nullSecondsCcHours : BudgetHoursRec := ⟨some "p1", some "c1", none⟩

/-- A progress record for `(p1, c1)` with value 5. -/
def progressP1C1 : ProgressRec := ⟨"pr1", some "p1", some "c1", some (PyNum.ofInt 5), none⟩

/-- The cost-code record `c1`. -/
def costCodeC1 : CostCodeRec := ⟨"c1", some "Tile", some "01"⟩

/-- A single active base project `p1`. -/
def soloProject : List (String × ProjInfo) := [("p1", ⟨"P1", none⟩)]

/-- An hours record keyed `(p1, c1)` with budgeted seconds but, in the
scenarios that use it, no corresponding progress record. -/
def orphanCcHours : BudgetHoursRec := ⟨some "p1", some "c1", some (PyNum.ofInt 3600)⟩

/-- The tree of the flatten-filtering scenario: active root 1, archived
child 2, active grandchild 3. -/
def treeC3 : HierNode :=
  .mk "1" "P1" none [.mk "2" "P2" (some "2024-01-01") [.mk "3" "P3" none []]]

/-- A chain of eight nodes (depth 8 > the 7 tracked path slots). -/
def chain8 : HierNode :=
  .mk "1" "A" none [.mk "2" "B" none [.mk "3" "C" none [.mk "4" "D" none
    [.mk "5" "E" none [.mk "6" "F" none [.mk "7" "G" none [.mk "8" "H" none []]]]]]]]

/-- A leaf node that is itself archived. -/
def archivedLeaf : HierNode := .mk "1" "A" (some "2024-01-01") []

/-- Two pages for the paginator: a full page of two records with cursors,
then a short final page. -/
def twoPages : List (List PageRecord) :=
  [[⟨"a", some "c1"⟩, ⟨"b", some "c2"⟩], [⟨"c", none⟩]]

/-! ## Helper lemmas: stable sort -/

theorem insertOrd_perm (le : α → α → Bool) (x : α) (l : List α) :
    List.Perm (insertOrd le x l) (x :: l) := by
  induction l with
  | nil => exact List.Perm.refl _
  | cons y ys ih =>
    by_cases h : le x y = true
    · rw [insertOrd, if_pos h]
    · rw [insertOrd, if_neg h]
      exact ((ih.cons y).trans (List.Perm.swap x y ys))

theorem sortBy_perm (le : α → α → Bool) (l : List α) :
    List.Perm (sortBy le l) l := by
  induction l with
  | nil => exact List.Perm.refl _
  | cons x xs ih =>
    exact (insertOrd_perm le x (sortBy le xs)).trans (ih.cons x)

theorem mem_insertOrd (le : α → α → Bool) (x y : α) (l : List α) :
    y ∈ insertOrd le x l ↔ y = x ∨ y ∈ l := by
  rw [(insertOrd_perm le x l).mem_iff]
  simp

theorem insertOrd_pairwise (le : α → α → Bool)
    (htot : ∀ a b, le a b = true ∨ le b a = true)
    (htrans : ∀ a b c, le a b = true → le b c = true → le a c = true)
    (x : α) (l : List α) (hl : l.Pairwise (fun a b => le a b = true)) :
    (insertOrd le x l).Pairwise (fun a b => le a b = true) := by
  induction l with
  | nil => simp [insertOrd]
  | cons y ys ih =>
    rcases List.pairwise_cons.mp hl with ⟨hy, hys⟩
    by_cases h : le x y = true
    · rw [insertOrd, if_pos h]
      refine List.pairwise_cons.mpr ⟨?_, hl⟩
      intro z hz
      rcases List.mem_cons.mp hz with rfl | hz
      · exact h
      · exact htrans x y z h (hy z hz)
    · rw [insertOrd, if_neg h]
      refine List.pairwise_cons.mpr ⟨?_, ih hys⟩
      intro z hz
      rcases (mem_insertOrd le x z ys).mp hz with hzx | hz
      · rw [hzx]
        rcases htot x y with h' | h'
        · exact absurd h' h
        · exact h'
      · exact hy z hz

theorem sortBy_pairwise (le : α → α → Bool)
    (htot : ∀ a b, le a b = true ∨ le b a = true)
    (htrans : ∀ a b c, le a b = true → le b c = true → le a c = true)
    (l : List α) :
    (sortBy le l).Pairwise (fun a b => le a b = true) := by
  induction l with
  | nil => simp [sortBy]
  | cons x xs ih => exact insertOrd_pairwise le htot htrans x (sortBy le xs) ih

/-! ## Helper lemmas: the string orderings -/

theorem charListLt_asymm :
    ∀ a b : List Char, charListLt a b = true → charListLt b a = false := by
  intro a
  induction a with
  | nil =>
    intro b h
    cases b with
    | nil => rfl
    | cons y ys => rfl
  | cons x xs ih =>
    intro b h
    cases b with
    | nil => exact absurd h (by simp [charListLt])
    | cons y ys =>
      rw [charListLt] at h ⊢
      rcases lt_trichotomy x y with hxy | hxy | hxy
      · rw [if_neg (asymm hxy), if_pos hxy]
      · subst hxy
        rw [if_neg (lt_irrefl x), if_neg (lt_irrefl x)] at h ⊢
        exact ih ys h
      · rw [if_neg (asymm hxy), if_pos hxy] at h
        exact absurd h (by simp)

theorem charListLt_eq_of_not :
    ∀ a b : List Char, charListLt a b = false → charListLt b a = false → a = b := by
  intro a
  induction a with
  | nil =>
    intro b h1 _
    cases b with
    | nil => rfl
    | cons y ys => exact absurd h1 (by simp [charListLt])
  | cons x xs ih =>
    intro b h1 h2
    cases b with
    | nil => exact absurd h2 (by simp [charListLt])
    | cons y ys =>
      rw [charListLt] at h1 h2
      rcases lt_trichotomy x y with hxy | hxy | hxy
      · rw [if_pos hxy] at h1
        exact absurd h1 (by simp)
      · subst hxy
        rw [if_neg (lt_irrefl x), if_neg (lt_irrefl x)] at h1 h2
        rw [ih ys h1 h2]
      · rw [if_pos hxy] at h2
        exact absurd h2 (by simp)

theorem charListLt_trans :
    ∀ a b c : List Char, charListLt a b = true → charListLt b c = true →
      charListLt a c = true := by
  intro a
  induction a with
  | nil =>
    intro b c h1 h2
    cases c with
    | nil =>
      cases b with
      | nil => exact h1
      | cons y ys => exact absurd h2 (by simp [charListLt])
    | cons z zs => rfl
  | cons x xs ih =>
    intro b c h1 h2
    cases b with
    | nil => exact absurd h1 (by simp [charListLt])
    | cons y ys =>
      cases c with
      | nil => exact absurd h2 (by simp [charListLt])
      | cons z zs =>
        rw [charListLt] at h1 h2 ⊢
        rcases lt_trichotomy x y with hxy | hxy | hxy
        · rcases lt_trichotomy y z with hyz | hyz | hyz
          · rw [if_pos (lt_trans hxy hyz)]
          · subst hyz
            rw [if_pos hxy]
          · rw [if_neg (asymm hyz), if_pos hyz] at h2
            exact absurd h2 (by simp)
        · subst hxy
          rcases lt_trichotomy x z with hxz | hxz | hxz
          · rw [if_pos hxz]
          · subst hxz
            rw [if_neg (lt_irrefl x), if_neg (lt_irrefl x)] at h1 h2 ⊢
            exact ih ys zs h1 h2
          · rcases lt_trichotomy x z with h' | h' | h'
            · exact absurd h' (asymm hxz)
            · exact absurd h' (ne_of_gt hxz)
            · rw [if_neg (asymm hxz), if_pos hxz] at h2
              exact absurd h2 (by simp)
        · rw [if_neg (asymm hxy), if_pos hxy] at h1
          exact absurd h1 (by simp)

theorem strLt_asymm (a b : String) (h : strLt a b = true) : strLt b a = false :=
  charListLt_asymm a.data b.data h

theorem strLt_eq_of_not (a b : String) (h1 : strLt a b = false)
    (h2 : strLt b a = false) : a = b := by
  have h3 := charListLt_eq_of_not a.data b.data h1 h2
  cases a; cases b
  exact congrArg String.mk h3

theorem strLt_trans (a b c : String) (h1 : strLt a b = true)
    (h2 : strLt b c = true) : strLt a c = true :=
  charListLt_trans a.data b.data c.data h1 h2

theorem strLt_false_of_asymm (a b : String) (h : strLt a b ≠ true) :
    strLt a b = false := by
  cases hv : strLt a b
  · rfl
  · exact absurd hv h

theorem listStrLe_total :
    ∀ a b : List String, listStrLe a b = true ∨ listStrLe b a = true := by
  intro a
  induction a with
  | nil => intro b; exact Or.inl rfl
  | cons x xs ih =>
    intro b
    cases b with
    | nil => exact Or.inr rfl
    | cons y ys =>
      by_cases hxy : strLt x y = true
      · left
        rw [listStrLe, if_pos hxy]
      · by_cases hyx : strLt y x = true
        · right
          rw [listStrLe, if_pos hyx]
        · have heq : x = y :=
            strLt_eq_of_not x y (strLt_false_of_asymm x y hxy) (strLt_false_of_asymm y x hyx)
          subst heq
          rcases ih ys with h | h
          · left
            rw [listStrLe, if_neg hxy, if_neg hxy]
            exact h
          · right
            rw [listStrLe, if_neg hxy, if_neg hxy]
            exact h

theorem listStrLe_trans :
    ∀ a b c : List String, listStrLe a b = true → listStrLe b c = true →
      listStrLe a c = true := by
  intro a
  induction a with
  | nil => intro b c _ _; rfl
  | cons x xs ih =>
    intro b c h1 h2
    cases b with
    | nil => exact absurd h1 (by simp [listStrLe])
    | cons y ys =>
      cases c with
      | nil => exact absurd h2 (by simp [listStrLe])
      | cons z zs =>
        rw [listStrLe] at h1 h2 ⊢
        by_cases hxy : strLt x y = true
        · by_cases hyz : strLt y z = true
          · rw [if_pos (strLt_trans x y z hxy hyz)]
          · by_cases hzy : strLt z y = true
            · rw [if_neg hyz, if_pos hzy] at h2
              exact absurd h2 (by simp)
            · have : y = z :=
                strLt_eq_of_not y z (strLt_false_of_asymm y z hyz) (strLt_false_of_asymm z y hzy)
              subst this
              rw [if_pos hxy]
        · by_cases hyx : strLt y x = true
          · rw [if_neg hxy, if_pos hyx] at h1
            exact absurd h1 (by simp)
          · have heq : x = y :=
              strLt_eq_of_not x y (strLt_false_of_asymm x y hxy) (strLt_false_of_asymm y x hyx)
            subst heq
            rw [if_neg hxy, if_neg hxy] at h1
            by_cases hxz : strLt x z = true
            · rw [if_pos hxz]
            · by_cases hzx : strLt z x = true
              · rw [if_neg hxz, if_pos hzx] at h2
                exact absurd h2 (by simp)
              · rw [if_neg hxz, if_neg hzx] at h2
                rw [if_neg hxz, if_neg hzx]
                exact ih ys zs h1 h2

theorem aggRowLe_total (a b : AggregateRow) :
    aggRowLe a b = true ∨ aggRowLe b a = true :=
  listStrLe_total (sortKey a) (sortKey b)

theorem aggRowLe_trans (a b c : AggregateRow) (h1 : aggRowLe a b = true)
    (h2 : aggRowLe b c = true) : aggRowLe a c = true :=
  listStrLe_trans (sortKey a) (sortKey b) (sortKey c) h1 h2

/-! ## Helper lemmas: aggregation structure -/

theorem mapExcept_ok_mem {f : α → Except String β} :
    ∀ {xs : List α} {ys : List β}, mapExcept f xs = .ok ys →
      ∀ y ∈ ys, ∃ x ∈ xs, f x = .ok y := by
  intro xs
  induction xs with
  | nil =>
    intro ys h y hy
    rw [mapExcept] at h
    cases h
    cases hy
  | cons x xs ih =>
    intro ys h y hy
    rw [mapExcept] at h
    cases hfx : f x with
    | error e => rw [hfx] at h; cases h
    | ok b =>
      rw [hfx] at h
      cases hrest : mapExcept f xs with
      | error e => rw [hrest] at h; cases h
      | ok bs =>
        rw [hrest] at h
        cases h
        rcases List.mem_cons.mp hy with rfl | hy
        · exact ⟨x, List.mem_cons_self x xs, hfx⟩
        · rcases ih hrest y hy with ⟨x', hx', hfx'⟩
          exact ⟨x', List.mem_cons_of_mem x hx', hfx'⟩

theorem map_filterMap_sublist (f : α → Option β) (g : β → γ) (h : α → γ)
    (H : ∀ a b, f a = some b → g b = h a) :
    ∀ l : List α, ((l.filterMap f).map g).Sublist (l.map h) := by
  intro l
  induction l with
  | nil => simp
  | cons a t ih =>
    cases hfa : f a with
    | none =>
      rw [List.filterMap_cons_none hfa, List.map_cons]
      exact ih.cons (h a)
    | some b =>
      rw [List.filterMap_cons_some hfa, List.map_cons, List.map_cons, H a b hfa]
      exact ih.cons₂ (h a)

theorem addCostCodeId_nodup (pid : String) (acc : List String) (p : ProgressRec)
    (hacc : acc.Nodup) : (addCostCodeId pid acc p).Nodup := by
  rw [addCostCodeId]
  split
  · cases hcc : p.costCodeId with
    | none => exact hacc
    | some cc =>
      by_cases hmem : cc ∈ acc
      · simp [hmem, hacc]
      · simp only [if_neg hmem]
        rw [(List.perm_append_singleton cc acc).nodup_iff, List.nodup_cons]
        exact ⟨hmem, hacc⟩
  · exact hacc

theorem foldl_addCostCodeId_nodup (pid : String) :
    ∀ (ps : List ProgressRec) (acc : List String), acc.Nodup →
      (ps.foldl (addCostCodeId pid) acc).Nodup := by
  intro ps
  induction ps with
  | nil => intro acc h; exact h
  | cons p ps ih =>
    intro acc h
    exact ih (addCostCodeId pid acc p) (addCostCodeId_nodup pid acc p h)

theorem projectCostCodeIds_nodup (progress : List ProgressRec) (pid : String) :
    (projectCostCodeIds progress pid).Nodup :=
  foldl_addCostCodeId_nodup pid progress [] List.nodup_nil

theorem mem_costCodeRows {hours : List BudgetHoursRec} {costs : List BudgetCostRec}
    {progress : List ProgressRec} {ccs : List CostCodeRec} {pid : String}
    {pd : ProjInfo} {r : AggregateRow}
    (hr : r ∈ costCodeRows hours costs progress ccs pid pd) :
    r.project_id = pid ∧ ∃ ccId, r.cost_code_id = some ccId ∧
      ∃ rec ∈ ccs, rec.id = ccId := by
  rw [costCodeRows] at hr
  rcases List.mem_filterMap.mp hr with ⟨ccId, _, hbuild⟩
  rw [costCodeMapLookup] at hbuild
  cases hlook : ccs.reverse.find? (fun cc => cc.id == ccId) with
  | none => rw [hlook] at hbuild; cases hbuild
  | some ccRec =>
    rw [hlook] at hbuild
    cases hfind : progress.find?
        (fun p => p.projectId == some pid && p.costCodeId == some ccId) with
    | none => rw [hfind] at hbuild; cases hbuild
    | some ccProg =>
      rw [hfind] at hbuild
      cases hbuild
      refine ⟨rfl, ccId, rfl, ccRec, ?_, ?_⟩
      · have hmem := List.mem_of_find?_eq_some hlook
        exact (List.mem_reverse).mp hmem
      · have hp := List.find?_some hlook
        exact eq_of_beq hp

theorem costCodeRows_keys_sublist (hours : List BudgetHoursRec)
    (costs : List BudgetCostRec) (progress : List ProgressRec)
    (ccs : List CostCodeRec) (pid : String) (pd : ProjInfo) :
    ((costCodeRows hours costs progress ccs pid pd).map AggregateRow.cost_code_id).Sublist
      ((projectCostCodeIds progress pid).map some) := by
  rw [costCodeRows]
  apply map_filterMap_sublist
  intro ccId r hbuild
  cases hlook : costCodeMapLookup ccs ccId with
  | none => rw [hlook] at hbuild; cases hbuild
  | some ccRec =>
    rw [hlook] at hbuild
    cases hfind : progress.find?
        (fun p => p.projectId == some pid && p.costCodeId == some ccId) with
    | none => rw [hfind] at hbuild; cases hbuild
    | some ccProg =>
      rw [hfind] at hbuild
      cases hbuild
      rfl

theorem costCodeRows_keys_nodup (hours : List BudgetHoursRec)
    (costs : List BudgetCostRec) (progress : List ProgressRec)
    (ccs : List CostCodeRec) (pid : String) (pd : ProjInfo) :
    ((costCodeRows hours costs progress ccs pid pd).map AggregateRow.cost_code_id).Nodup := by
  refine (costCodeRows_keys_sublist hours costs progress ccs pid pd).nodup ?_
  exact (projectCostCodeIds_nodup progress pid).map (Option.some_injective String)

theorem combineProjects_mem_pid (hours : List BudgetHoursRec)
    (costs : List BudgetCostRec) (progress : List ProgressRec)
    (ccs : List CostCodeRec) :
    ∀ (pis : List (String × ProjInfo)) {l : List AggregateRow},
      combineProjects hours costs progress ccs pis = .ok l →
      ∀ r ∈ l, r.project_id ∈ pis.map Prod.fst := by
  intro pis
  induction pis with
  | nil =>
    intro l h r hr
    rw [combineProjects] at h
    cases h
    cases hr
  | cons x rest ih =>
    obtain ⟨pid, pd⟩ := x
    intro l h r hr
    rw [combineProjects] at h
    cases hph : projectHoursSum hours pid with
    | error e => rw [hph] at h; cases h
    | ok ph =>
      rw [hph] at h
      cases hrest : combineProjects hours costs progress ccs rest with
      | error e => rw [hrest] at h; cases h
      | ok tail =>
        rw [hrest] at h
        cases h
        rw [List.map_cons]
        rcases List.mem_append.mp hr with hr | hr
        · rcases List.mem_cons.mp hr with hbase | hcc
          · rw [hbase]
            exact List.mem_cons_self _ _
          · rw [(mem_costCodeRows hcc).1]
            exact List.mem_cons_self _ _
        · exact List.mem_cons_of_mem _ (ih hrest r hr)

theorem combineProjects_base_mem (hours : List BudgetHoursRec)
    (costs : List BudgetCostRec) (progress : List ProgressRec)
    (ccs : List CostCodeRec) :
    ∀ (pis : List (String × ProjInfo)) {l : List AggregateRow},
      combineProjects hours costs progress ccs pis = .ok l →
      ∀ pid pd, (pid, pd) ∈ pis →
        ∃ r ∈ l, r.project_id = pid ∧ r.cost_code_id = none := by
  intro pis
  induction pis with
  | nil =>
    intro l h pid pd hmem
    cases hmem
  | cons x rest ih =>
    obtain ⟨pid0, pd0⟩ := x
    intro l h pid pd hmem
    rw [combineProjects] at h
    cases hph : projectHoursSum hours pid0 with
    | error e => rw [hph] at h; cases h
    | ok ph =>
      rw [hph] at h
      cases hrest : combineProjects hours costs progress ccs rest with
      | error e => rw [hrest] at h; cases h
      | ok tail =>
        rw [hrest] at h
        cases h
        rcases List.mem_cons.mp hmem with heq | hmem
        · cases heq
          refine ⟨baseRow pid0 pd0 ph (projectCostsSum costs pid0), ?_, rfl, rfl⟩
          exact List.mem_append_left _ (List.mem_cons_self _ _)
        · rcases ih hrest pid pd hmem with ⟨r, hrl, hp, hc⟩
          exact ⟨r, List.mem_append_right _ hrl, hp, hc⟩

theorem combineProjects_cc_provenance (hours : List BudgetHoursRec)
    (costs : List BudgetCostRec) (progress : List ProgressRec)
    (ccs : List CostCodeRec) :
    ∀ (pis : List (String × ProjInfo)) {l : List AggregateRow},
      combineProjects hours costs progress ccs pis = .ok l →
      ∀ r ∈ l, ∀ cc, r.cost_code_id = some cc → ∃ rec ∈ ccs, rec.id = cc := by
  intro pis
  induction pis with
  | nil =>
    intro l h r hr
    rw [combineProjects] at h
    cases h
    cases hr
  | cons x rest ih =>
    obtain ⟨pid, pd⟩ := x
    intro l h r hr cc hcc
    rw [combineProjects] at h
    cases hph : projectHoursSum hours pid with
    | error e => rw [hph] at h; cases h
    | ok ph =>
      rw [hph] at h
      cases hrest : combineProjects hours costs progress ccs rest with
      | error e => rw [hrest] at h; cases h
      | ok tail =>
        rw [hrest] at h
        cases h
        rcases List.mem_append.mp hr with hr | hr
        · rcases List.mem_cons.mp hr with hbase | hccr
          · rw [hbase] at hcc
            cases hcc
          · rcases (mem_costCodeRows hccr).2 with ⟨ccId, hid, rec, hrec, hrecid⟩
            rw [hid] at hcc
            cases hcc
            exact ⟨rec, hrec, hrecid⟩
        · exact ih hrest r hr cc hcc

theorem combineProjects_keys_nodup (hours : List BudgetHoursRec)
    (costs : List BudgetCostRec) (progress : List ProgressRec)
    (ccs : List CostCodeRec) :
    ∀ (pis : List (String × ProjInfo)) {l : List AggregateRow},
      (pis.map Prod.fst).Nodup →
      combineProjects hours costs progress ccs pis = .ok l →
      (l.map entityKey).Nodup := by
  intro pis
  induction pis with
  | nil =>
    intro l _ h
    rw [combineProjects] at h
    cases h
    exact List.nodup_nil
  | cons x rest ih =>
    obtain ⟨pid, pd⟩ := x
    intro l hn h
    rw [List.map_cons, List.nodup_cons] at hn
    obtain ⟨hpid, hnrest⟩ := hn
    rw [combineProjects] at h
    cases hph : projectHoursSum hours pid with
    | error e => rw [hph] at h; cases h
    | ok ph =>
      rw [hph] at h
      cases hrest : combineProjects hours costs progress ccs rest with
      | error e => rw [hrest] at h; cases h
      | ok tail =>
        rw [hrest] at h
        cases h
        rw [List.map_append]
        have hproj : ∀ r ∈ costCodeRows hours costs progress ccs pid pd,
            entityKey r = (pid, r.cost_code_id) := by
          intro r hr
          rw [entityKey, (mem_costCodeRows hr).1]
        have hccmap : (costCodeRows hours costs progress ccs pid pd).map entityKey
            = ((costCodeRows hours costs progress ccs pid pd).map
                AggregateRow.cost_code_id).map (fun c => (pid, c)) := by
          rw [List.map_map]
          exact List.map_congr_left hproj
        have hccnodup : ((costCodeRows hours costs progress ccs pid pd).map entityKey).Nodup := by
          rw [hccmap]
          refine (costCodeRows_keys_nodup hours costs progress ccs pid pd).map ?_
          intro a b hab
          exact (Prod.ext_iff.mp hab).2
        have hbasenotin : entityKey (baseRow pid pd ph (projectCostsSum costs pid))
            ∉ (costCodeRows hours costs progress ccs pid pd).map entityKey := by
          intro hmem
          rcases List.mem_map.mp hmem with ⟨r, hr, hkey⟩
          rcases (mem_costCodeRows hr).2 with ⟨ccId, hid, _, _, _⟩
          rw [entityKey] at hkey
          have : (baseRow pid pd ph (projectCostsSum costs pid)).cost_code_id
              = r.cost_code_id := (Prod.ext_iff.mp hkey.symm).2
          rw [hid] at this
          cases this
        refine List.nodup_append.mpr ⟨?_, ih hnrest hrest, ?_⟩
        · rw [List.map_cons, List.nodup_cons]
          exact ⟨hbasenotin, hccnodup⟩
        · intro k hk1 hk2
          have hfst : k.1 = pid := by
            rcases List.mem_cons.mp hk1 with hb | hc
            · rw [hb]
              rfl
            · rcases List.mem_map.mp hc with ⟨r, hr, hkey⟩
              rw [← hkey, hproj r hr]
          rcases List.mem_map.mp hk2 with ⟨r, hr, hkey⟩
          have hin : r.project_id ∈ rest.map Prod.fst :=
            combineProjects_mem_pid hours costs progress ccs rest hrest r hr
          rw [← hkey] at hfst
          rw [entityKey] at hfst
          have : r.project_id = pid := hfst
          rw [this] at hin
          exact hpid hin

/-! ## Claim theorems: aggregator and paginator -/

/-- C1 (counterexample): the aggregator orders the base projects titled
`Lot 2`, `Lot 10`, `Lot 1` as `Lot 1, Lot 10, Lot 2` — plain
case-insensitive lexical order — and not as the natural order
`Lot 1, Lot 2, Lot 10` the claim asserts: `sort_key` lowercases and splits
the title but never compares digit runs as integers. -/
theorem combine_lot_titles_lexical_not_natural :
    (combineHierarchicalData [] [] [] [] lotProjects).map
        (fun rs => rs.map AggregateRow.project_title)
      = .ok ["Lot 1", "Lot 10", "Lot 2"]
    ∧ (["Lot 1", "Lot 10", "Lot 2"] : List String) ≠ ["Lot 1", "Lot 2", "Lot 10"] := by
  decide

/-- C1 (amended): every successful aggregator output is sorted by the key
`sort_key` actually computes — case-insensitive plain lexicographic
comparison of the `" / "`-separated title segments followed by the
lowercased cost-code title, with digits compared as characters (so
`"Lot 10"` precedes `"Lot 2"`). -/
theorem combine_output_sorted_lexical (hours : List BudgetHoursRec)
    (costs : List BudgetCostRec) (progress : List ProgressRec)
    (ccs : List CostCodeRec) (projectInfo : List (String × ProjInfo))
    (rows : List AggregateRow)
    (hok : combineHierarchicalData hours costs progress ccs projectInfo = .ok rows) :
    rows.Pairwise (fun a b => aggRowLe a b = true) := by
  rw [combineHierarchicalData] at hok
  cases hcp : combineProjects hours costs progress ccs projectInfo with
  | error e => rw [hcp] at hok; cases hok
  | ok l =>
    rw [hcp] at hok
    cases hok
    exact sortBy_pairwise aggRowLe aggRowLe_total aggRowLe_trans l

/-- C1 (witness): the theorem applied to the three `Lot` projects. -/
theorem combine_output_sorted_lexical_witness :
    ([⟨"", "p3", "Lot 1", none, "", 0, 0, 0, 0, "Active"⟩,
      ⟨"", "p2", "Lot 10", none, "", 0, 0, 0, 0, "Active"⟩,
      ⟨"", "p1", "Lot 2", none, "", 0, 0, 0, 0, "Active"⟩] : List AggregateRow).Pairwise
      (fun a b => aggRowLe a b = true) :=
  combine_output_sorted_lexical [] [] [] [] lotProjects _ (by decide)

/-- C2: at the project level (line 297) a null `budgetSeconds` on a matching
hours record makes `h.get('budgetSeconds', 0) / 3600` evaluate `None / 3600`
and raise `TypeError`, aborting the whole aggregation — the claim (and line
347, which guards the cost-code level with `is not None` and yields 0 hours)
says it should coerce to 0; the second conjunct shows the guarded cost-code
level behaviour on the same null. -/
theorem combine_null_budget_seconds_type_error :
    combineHierarchicalData [nullSecondsHours] [] [] [] soloProject
      = .error "TypeError: unsupported operand types for division: NoneType and int"
    ∧ combineHierarchicalData [nullSecondsCcHours] [] [progressP1C1] [costCodeC1] soloProject
      = .ok [⟨"", "p1", "P1", none, "", 0, 0, 0, 0, "Active"⟩,
             ⟨"pr1", "p1", "P1", some "c1", "01 Tile", 0, 0, PyNum.ofInt 5, 0, "Active"⟩] := by
  decide

/-- C5 (counterexample): the key `(p1, c1)` appears in the hours dataset
(with budgeted seconds) but, having no progress record, produces no output
row — the output holds only the project-level key — refuting "exactly one
AggregateRow per EntityKey that appears in any input dataset". -/
theorem combine_hours_key_without_progress_dropped :
    combineHierarchicalData [orphanCcHours] [] [] [] soloProject
      = .ok [⟨"", "p1", "P1", none, "", 0, 0, 0, 0, "Active"⟩]
    ∧ (orphanCcHours.projectId, orphanCcHours.costCodeId) = (some "p1", some "c1")
    ∧ ([⟨"", "p1", "P1", none, "", 0, 0, 0, 0, "Active"⟩] : List AggregateRow).map entityKey
        = [("p1", none)] := by
  decide

/-- C5 (amended): on every successful aggregation over distinct base project
ids, the output has at most one row per EntityKey `(project_id,
cost_code_id)`, and a project-level row (`cost_code_id = none`) exists for
every base project; keys appearing only in the hours/costs datasets may
produce no row. -/
theorem combine_key_unique_and_base_row_exists (hours : List BudgetHoursRec)
    (costs : List BudgetCostRec) (progress : List ProgressRec)
    (ccs : List CostCodeRec) (projectInfo : List (String × ProjInfo))
    (rows : List AggregateRow)
    (hids : (projectInfo.map Prod.fst).Nodup)
    (hok : combineHierarchicalData hours costs progress ccs projectInfo = .ok rows) :
    (rows.map entityKey).Nodup ∧
      ∀ pid pd, (pid, pd) ∈ projectInfo →
        ∃ r ∈ rows, r.project_id = pid ∧ r.cost_code_id = none := by
  rw [combineHierarchicalData] at hok
  cases hcp : combineProjects hours costs progress ccs projectInfo with
  | error e => rw [hcp] at hok; cases hok
  | ok l =>
    rw [hcp] at hok
    cases hok
    have hperm : List.Perm (sortBy aggRowLe l) l := sortBy_perm aggRowLe l
    constructor
    · exact ((hperm.map entityKey).nodup_iff).mpr
        (combineProjects_keys_nodup hours costs progress ccs projectInfo hids hcp)
    · intro pid pd hmem
      rcases combineProjects_base_mem hours costs progress ccs projectInfo hcp pid pd hmem
        with ⟨r, hrl, h1, h2⟩
      exact ⟨r, hperm.mem_iff.mpr hrl, h1, h2⟩

/-- C5 (witness): the theorem applied to a single base project with empty
datasets. -/
theorem combine_key_unique_and_base_row_exists_witness :
    (([⟨"", "p1", "P1", none, "", 0, 0, 0, 0, "Active"⟩] : List AggregateRow).map
        entityKey).Nodup ∧
      ∀ pid pd, (pid, pd) ∈ soloProject →
        ∃ r ∈ ([⟨"", "p1", "P1", none, "", 0, 0, 0, 0, "Active"⟩] : List AggregateRow),
          r.project_id = pid ∧ r.cost_code_id = none :=
  combine_key_unique_and_base_row_exists [] [] [] [] soloProject _ (by decide) (by decide)

/-- C10: a cost-code id that is absent from the fetched cost-codes dataset
never appears on any output row, whatever the other inputs — in particular a
(project, cost-code) pair that qualifies through a non-zero progress record
is silently dropped rather than emitted with an empty label
(`if cc_id in cost_code_map` at line 327). -/
theorem combine_no_row_for_absent_cost_code (hours : List BudgetHoursRec)
    (costs : List BudgetCostRec) (progress : List ProgressRec)
    (ccs : List CostCodeRec) (projectInfo : List (String × ProjInfo))
    (rows : List AggregateRow) (cc : String)
    (hok : combineHierarchicalData hours costs progress ccs projectInfo = .ok rows)
    (habs : cc ∉ ccs.map CostCodeRec.id) :
    ∀ r ∈ rows, r.cost_code_id ≠ some cc := by
  rw [combineHierarchicalData] at hok
  cases hcp : combineProjects hours costs progress ccs projectInfo with
  | error e => rw [hcp] at hok; cases hok
  | ok l =>
    rw [hcp] at hok
    cases hok
    intro r hr hcc
    have hr' : r ∈ l := (sortBy_perm aggRowLe l).mem_iff.mp hr
    rcases combineProjects_cc_provenance hours costs progress ccs projectInfo hcp r hr' cc hcc
      with ⟨rec, hrec, hrecid⟩
    exact habs (hrecid ▸ List.mem_map_of_mem CostCodeRec.id hrec)

/-- C10 (witness): with a qualifying progress record for `(p1, c1)` but an
empty cost-codes dataset, the only output row is the project-level one and
it does not carry `c1`. -/
theorem combine_no_row_for_absent_cost_code_witness :
    (⟨"", "p1", "P1", none, "", 0, 0, 0, 0, "Active"⟩ : AggregateRow).cost_code_id
      ≠ some "c1" :=
  combine_no_row_for_absent_cost_code [] [] [progressP1C1] [] soloProject
    [⟨"", "p1", "P1", none, "", 0, 0, 0, 0, "Active"⟩] "c1" (by decide) (by decide)
    _ (by decide)

/-- C4: over any finite page sequence in which every non-final page is full
(exactly the batch size) with a truthy cursor on its last record, and the
final page is strictly shorter than the batch size, the pagination loop
returns exactly the concatenation of all pages in arrival order (and, being
a total function on the page list, terminates). -/
theorem fetchAllWithCursor_returns_concatenation (batchSize : Nat)
    (pages : List (List PageRecord)) (hb : 0 < batchSize)
    (hfull : ∀ p ∈ pages.dropLast, p.length = batchSize ∧
        pyTruthyStr ((p.getLast?).bind PageRecord.cursor) = true)
    (hlast : ((pages.getLast?).getD []).length < batchSize) :
    fetchAllWithCursor batchSize pages = pages.flatten := by
  induction pages with
  | nil => rfl
  | cons p rest ih =>
    cases rest with
    | nil =>
      have hp : p.length < batchSize := by simpa using hlast
      rw [fetchAllWithCursor]
      by_cases hpe : p.isEmpty
      · rw [if_pos hpe, List.isEmpty_iff.mp hpe]
        rfl
      · rw [if_neg hpe]
        have hne : ¬ p.length = batchSize := Nat.ne_of_lt hp
        simp [if_neg hne, pyTruthyStr]
    | cons q rest' =>
      have hpfull := hfull p (by rw [List.dropLast_cons₂]; exact List.mem_cons_self _ _)
      have hplen : p.length = batchSize := hpfull.1
      have hpe : ¬ p.isEmpty := by
        intro h
        rw [List.isEmpty_iff.mp h] at hplen
        exact absurd hplen.symm (Nat.ne_of_gt hb)
      rw [fetchAllWithCursor, if_neg hpe]
      simp only [if_pos hplen, hpfull.2, if_pos rfl]
      have htail : fetchAllWithCursor batchSize (q :: rest') = (q :: rest').flatten := by
        apply ih
        · intro p' hp'
          exact hfull p' (by rw [List.dropLast_cons₂]; exact List.mem_cons_of_mem _ hp')
        · rw [← List.getLast?_cons_cons (l := rest') (a := p) (b := q)]
          exact hlast
      rw [htail]
      rfl

/-- C4 (witness): the theorem applied to a full page of two records followed
by a short final page, with batch size 2. -/
theorem fetchAllWithCursor_returns_concatenation_witness :
    fetchAllWithCursor 2 twoPages = twoPages.flatten :=
  fetchAllWithCursor_returns_concatenation 2 twoPages (by decide) (by decide) (by decide)

/-! ## Claim theorems: timezone formatter -/

/-- C6: the concrete round trip — `GMT+05:30` shifts noon to
`17:30:00.000+05:30`, and the malformed descriptor `BADZONE` yields the
empty-string sentinel, not the input. -/
theorem convert_timezone_round_trip :
    convertUtcToTimezone "2024-03-01T12:00:00" "GMT+05:30"
      = "2024-03-01T17:30:00.000+05:30"
    ∧ convertUtcToTimezone "2024-03-01T12:00:00" "BADZONE" = "" := by
  decide

/-- C7 (counterexample): with a perfectly valid zone descriptor, a timestamp
with fractional seconds and a `Z` suffix is *not* parsed: the converter
returns the empty sentinel instead of the rendering the claim asserts. -/
theorem convert_fractional_timestamp_returns_sentinel :
    convertUtcToTimezone "2024-03-01T12:00:00.123Z" "GMT+05:30" = "" := by
  decide

/-- C7 (amended): `convert_utc_to_timezone` parses its timestamp with the
strict `%Y-%m-%dT%H:%M:%S` format only, so for every zone descriptor a
timestamp with fractional seconds or a trailing `Z` yields the sentinel `""`
— even though the separate `parse_datetime` helper (defined in the same
module but never called by the converter) accepts both; only the bare basic
format converts, and then renders with the original offset components. -/
theorem convert_accepts_only_basic_format :
    (∀ tz : String,
       convertUtcToTimezone "2024-03-01T12:00:00.123Z" tz = ""
       ∧ convertUtcToTimezone "2024-03-01T12:00:00Z" tz = "")
    ∧ parseDatetime "2024-03-01T12:00:00.123Z" = some ⟨2024, 3, 1, 12, 0, 0, 123000⟩
    ∧ parseDatetime "2024-03-01T12:00:00Z" = some ⟨2024, 3, 1, 12, 0, 0, 0⟩
    ∧ convertUtcToTimezone "2024-03-01T12:00:00" "GMT+05:30"
        = "2024-03-01T17:30:00.000+05:30" := by
  refine ⟨?_, by decide, by decide, by decide⟩
  intro tz
  constructor
  · by_cases htz : tz = ""
    · rw [convertUtcToTimezone, if_pos (Or.inr htz)]
    · rw [convertUtcToTimezone, if_neg (not_or.mpr ⟨by decide, htz⟩)]
      have hp : parseBasicIso "2024-03-01T12:00:00.123Z" = none := by decide
      rw [hp]
  · by_cases htz : tz = ""
    · rw [convertUtcToTimezone, if_pos (Or.inr htz)]
    · rw [convertUtcToTimezone, if_neg (not_or.mpr ⟨by decide, htz⟩)]
      have hp : parseBasicIso "2024-03-01T12:00:00Z" = none := by decide
      rw [hp]

/-! ## Claim theorems: tree flattener -/

/-- C3: a child is kept (and recursed into) by `filter_children` iff its
archived marker matches the requested view, and consequently flattening the
tree `{id 1 active, child id 2 archived, grandchild id 3 active}` under the
active view emits exactly the one row for id 1 — node 2 is pruned and node 3
is never reached. -/
theorem flatten_active_prunes_archived_subtree :
    (∀ (isArchived : Bool) (cs : List HierNode) (c : HierNode),
       c ∈ filterKept isArchived cs ↔
         ∃ c0 ∈ cs, keepChild isArchived c0 = true ∧ c = filterChildren isArchived c0)
    ∧ prepareHierarchy [treeC3] false
        = [⟨"1", ["P1", "", "", "", "", "", ""], "Active"⟩] := by
  constructor
  · intro isA cs
    induction cs with
    | nil =>
      intro c
      simp [filterKept]
    | cons c0 rest ih =>
      intro c
      rw [filterKept]
      by_cases h : keepChild isA c0 = true
      · rw [if_pos h]
        constructor
        · intro hc
          rcases List.mem_cons.mp hc with hc | hc
          · exact ⟨c0, List.mem_cons_self _ _, h, hc⟩
          · rcases (ih c).mp hc with ⟨c1, hc1, hk, he⟩
            exact ⟨c1, List.mem_cons_of_mem _ hc1, hk, he⟩
        · rintro ⟨c1, hc1, hk, he⟩
          rcases List.mem_cons.mp hc1 with hc1 | hc1
          · rw [he, hc1]
            exact List.mem_cons_self _ _
          · exact List.mem_cons_of_mem _ ((ih c).mpr ⟨c1, hc1, hk, he⟩)
      · rw [if_neg h]
        constructor
        · intro hc
          rcases (ih c).mp hc with ⟨c1, hc1, hk, he⟩
          exact ⟨c1, List.mem_cons_of_mem _ hc1, hk, he⟩
        · rintro ⟨c1, hc1, hk, he⟩
          rcases List.mem_cons.mp hc1 with hc1 | hc1
          · rw [hc1] at hk
            exact absurd hk h
          · exact (ih c).mpr ⟨c1, hc1, hk, he⟩
  · decide

/-- C9 (counterexample): an archived root flattened under the active view is
emitted with status `Active` — the status comes from the requested view, not
from the node's own non-null archived marker as the claim asserts. -/
theorem flatten_status_ignores_node_marker :
    prepareHierarchy [archivedLeaf] false
      = [⟨"1", ["A", "", "", "", "", "", ""], "Active"⟩]
    ∧ archivedLeaf.archivedOn = some "2024-01-01" := by
  decide

/-- C9 (amended): every visited node emits a row regardless of its own
active/archived state (the node's row heads its subtree's output), but the
row's status is `"Archived"` iff the requested view is the archived one —
`format_project_data` derives it from `is_archived`, not from the node. -/
theorem processHierarchy_head_row_from_view (isArchived : Bool) (node : HierNode)
    (depth : Nat) (names : List String) (rows : List FlatRow)
    (hok : processHierarchy isArchived node depth names = .ok rows) :
    ∃ path rest, rows =
      (⟨node.id, path, if isArchived then "Archived" else "Active"⟩ : FlatRow) :: rest := by
  rw [processHierarchy] at hok
  cases hfuel : names.length - depth with
  | zero =>
    rw [hfuel, processHierarchyGo] at hok
    cases hok
  | succ n =>
    rw [hfuel, processHierarchyGo] at hok
    split at hok
    · cases hok
    · dsimp only at hok
      split at hok
      · cases hok
      · cases hok
        exact ⟨_, _, rfl⟩

/-- C9 (witness): the theorem applied to the archived leaf under the active
view. -/
theorem processHierarchy_head_row_from_view_witness :
    ∃ path rest, ([⟨"1", ["A", "", "", "", "", "", ""], "Active"⟩] : List FlatRow)
      = (⟨"1", path, "Active"⟩ : FlatRow) :: rest :=
  processHierarchy_head_row_from_view false archivedLeaf 0 (List.replicate 7 "")
    [⟨"1", ["A", "", "", "", "", "", ""], "Active"⟩] (by decide)

/-! ## Helper lemmas: the 7-slot path invariant -/

theorem listSet_some {names : List String} {i : Nat} {v : String} {cur : List String}
    (h : listSet names i v = some cur) : i < names.length ∧ cur = names.set i v := by
  rw [listSet] at h
  by_cases hi : i < names.length
  · rw [if_pos hi] at h
    cases h
    exact ⟨hi, rfl⟩
  · rw [if_neg hi] at h
    cases h

theorem drop_succ_set (v : String) :
    ∀ (l : List String) (i : Nat), (l.set i v).drop (i + 1) = l.drop (i + 1) := by
  intro l
  induction l with
  | nil => intro i; rfl
  | cons x xs ih =>
    intro i
    cases i with
    | zero => rfl
    | succ j => exact ih j

theorem formatProjectData_path_of_len7 (isArchived : Bool) (node : HierNode)
    (cur : List String) (hlen : cur.length = 7) :
    (formatProjectData isArchived node cur).path = cur.map cleanName := by
  rw [formatProjectData]
  dsimp only
  rw [hlen]
  simp only [Nat.sub_self, List.replicate, List.append_nil]
  have hml : (cur.map cleanName).length = 7 := by rw [List.length_map, hlen]
  rw [← hml]
  exact List.take_length _

theorem mapExcept_congr_map {α β γ : Type} {f : α → Except String β} {g : β → γ}
    {f2 : α → Except String γ} :
    ∀ {xs : List α}, (∀ x ∈ xs, (f x).map g = f2 x) →
      (mapExcept f xs).map (fun ys => ys.map g) = mapExcept f2 xs := by
  intro xs
  induction xs with
  | nil => intro _; rfl
  | cons x xs ih =>
    intro H
    have hx := H x (List.mem_cons_self _ _)
    have hxs := ih (fun y hy => H y (List.mem_cons_of_mem _ hy))
    rw [mapExcept, mapExcept]
    cases hfx : f x with
    | error e =>
      rw [hfx] at hx
      rw [← hx]
      rfl
    | ok b =>
      rw [hfx] at hx
      rw [← hx]
      cases hrec : mapExcept f xs with
      | error e =>
        rw [hrec] at hxs
        rw [← hxs]
        rfl
      | ok ys =>
        rw [hrec] at hxs
        rw [← hxs]
        rfl

theorem processHierarchyDepthGo_fst (isArchived : Bool) :
    ∀ (fuel : Nat) (node : HierNode) (depth : Nat) (names : List String),
      (processHierarchyDepthGo isArchived fuel node depth names).map (List.map Prod.fst)
        = processHierarchyGo isArchived fuel node depth names := by
  intro fuel
  induction fuel with
  | zero => intro node depth names; rfl
  | succ n ih =>
    intro node depth names
    rw [processHierarchyDepthGo, processHierarchyGo]
    cases hset : listSet names depth node.title with
    | none => rfl
    | some cur =>
      dsimp only
      have hrel : ∀ c ∈ sortBy titleLe (filterChildren isArchived node).children,
          (processHierarchyDepthGo isArchived n c (depth + 1) cur).map (List.map Prod.fst)
            = processHierarchyGo isArchived n c (depth + 1) cur :=
        fun c _ => ih c (depth + 1) cur
      rw [← mapExcept_congr_map hrel]
      cases hdec : mapExcept
          (fun c => processHierarchyDepthGo isArchived n c (depth + 1) cur)
          (sortBy titleLe (filterChildren isArchived node).children) with
      | error e => rfl
      | ok rss =>
        show Except.ok (formatProjectData isArchived node cur :: rss.flatten.map Prod.fst)
          = Except.ok (formatProjectData isArchived node cur
              :: (rss.map (List.map Prod.fst)).flatten)
        rw [List.map_flatten]

theorem processHierarchyDepthGo_padding (isArchived : Bool) :
    ∀ (fuel : Nat) (node : HierNode) (depth : Nat) (names : List String)
      (rows : List (FlatRow × Nat)),
      names.length = 7 →
      names.drop depth = List.replicate (7 - depth) "" →
      processHierarchyDepthGo isArchived fuel node depth names = .ok rows →
      ∀ rd ∈ rows, rd.1.path.length = 7 ∧ depth ≤ rd.2 ∧ rd.2 < 7 ∧
        rd.1.path.drop (rd.2 + 1) = List.replicate (6 - rd.2) "" := by
  intro fuel
  induction fuel with
  | zero =>
    intro node depth names rows _ _ hok
    rw [processHierarchyDepthGo] at hok
    cases hok
  | succ n ih =>
    intro node depth names rows hlen hdrop hok
    rw [processHierarchyDepthGo] at hok
    cases hset : listSet names depth node.title with
    | none => rw [hset] at hok; cases hok
    | some cur =>
      rw [hset] at hok
      obtain ⟨hdlt, hcur⟩ := listSet_some hset
      have hd7 : depth < 7 := by rw [hlen] at hdlt; exact hdlt
      have hcurlen : cur.length = 7 := by rw [hcur, List.length_set, hlen]
      have hnamesdrop1 : names.drop (depth + 1) = List.replicate (6 - depth) "" := by
        have h1 := List.drop_drop 1 depth names
        rw [← h1, hdrop]
        have h2 : 7 - depth = (6 - depth) + 1 := by omega
        rw [h2, List.replicate_succ]
        rfl
      have hcurdrop1 : cur.drop (depth + 1) = List.replicate (6 - depth) "" := by
        rw [hcur, drop_succ_set, hnamesdrop1]
      have hcurdrop : cur.drop (depth + 1) = List.replicate (7 - (depth + 1)) "" := by
        rw [hcurdrop1]
        congr 1
        omega
      dsimp only at hok
      cases hmap : mapExcept
          (fun c => processHierarchyDepthGo isArchived n c (depth + 1) cur)
          (sortBy titleLe (filterChildren isArchived node).children) with
      | error e => rw [hmap] at hok; cases hok
      | ok rss =>
        rw [hmap] at hok
        cases hok
        intro rd hrd
        rcases List.mem_cons.mp hrd with hhead | htail
        · rw [hhead]
          refine ⟨?_, le_refl depth, hd7, ?_⟩
          · show (formatProjectData isArchived node cur).path.length = 7
            rw [formatProjectData_path_of_len7 isArchived node cur hcurlen,
              List.length_map, hcurlen]
          · show (formatProjectData isArchived node cur).path.drop (depth + 1)
              = List.replicate (6 - depth) ""
            rw [formatProjectData_path_of_len7 isArchived node cur hcurlen,
              ← List.map_drop, hcurdrop1, List.map_replicate]
            rfl
        · rcases List.mem_flatten.mp htail with ⟨rs, hrs, hrrs⟩
          rcases mapExcept_ok_mem hmap rs hrs with ⟨kid, _, hkid⟩
          rcases ih kid (depth + 1) cur rs hcurlen hcurdrop hkid rd hrrs
            with ⟨h1, h2, h3, h4⟩
          exact ⟨h1, by omega, h3, h4⟩

/-- C8 (counterexample): flattening a chain of eight nodes under the active
view yields the empty list — `current_names[depth]` raises `IndexError` at
depth 7, the outer `try/except` of `prepare_hierarchy` swallows it, and the
whole tree is discarded instead of truncating to the first 7 levels. -/
theorem flatten_deep_tree_returns_empty :
    prepareHierarchy [chain8] false = [] := by
  decide

/-- C8 (amended): `flattenWithDepth` is `prepare_hierarchy` instrumented with
each emitted row's recursion depth `d` (the row's true tree depth minus
one); the first conjunct proves that erasing the depths yields exactly
`prepareHierarchy`, so the instrumentation is faithful.  The second conjunct
is the padding invariant with the depth universally quantified per row:
every emitted row has a path of length exactly 7 whose suffix after its own
depth slot — the slots at or beyond the row's true depth — is literally
`replicate (6 - d) ""`, a real constraint on the in-range slots (for the
root, six blank slots).  Third conjunct: a tree deeper than 7 levels is not
truncated — the `IndexError` raised at depth 7 makes the whole call return
the empty list, emitting no rows at all. -/
theorem flatten_path_padded_and_deep_tree_dropped :
    (∀ (projects : List HierNode) (isArchived : Bool),
       prepareHierarchy projects isArchived
         = (flattenWithDepth projects isArchived).map Prod.fst)
    ∧ (∀ (projects : List HierNode) (isArchived : Bool) (r : FlatRow) (d : Nat),
        (r, d) ∈ flattenWithDepth projects isArchived →
          r.path.length = 7 ∧ d < 7 ∧
          r.path.drop (d + 1) = List.replicate (6 - d) "")
    ∧ prepareHierarchy [chain8] false = [] := by
  refine ⟨?_, ?_, by decide⟩
  · intro projects isA
    rw [prepareHierarchy, flattenWithDepth]
    have hrel : ∀ p ∈ projects,
        (processHierarchyDepth isA p 0 (List.replicate 7 "")).map (List.map Prod.fst)
          = processHierarchy isA p 0 (List.replicate 7 "") := by
      intro p _
      rw [processHierarchyDepth, processHierarchy]
      exact processHierarchyDepthGo_fst isA _ p 0 _
    rw [← mapExcept_congr_map hrel]
    cases hdec : mapExcept
        (fun p => processHierarchyDepth isA p 0 (List.replicate 7 "")) projects with
    | error e => rfl
    | ok rss =>
      show (rss.map (List.map Prod.fst)).flatten = rss.flatten.map Prod.fst
      exact (List.map_flatten Prod.fst rss).symm
  · intro projects isA r d hmem
    rw [flattenWithDepth] at hmem
    cases hdec : mapExcept
        (fun p => processHierarchyDepth isA p 0 (List.replicate 7 "")) projects with
    | error e =>
      rw [hdec] at hmem
      cases hmem
    | ok rss =>
      rw [hdec] at hmem
      rcases List.mem_flatten.mp hmem with ⟨rs, hrs, hrd⟩
      rcases mapExcept_ok_mem hdec rs hrs with ⟨proj, _, hproj⟩
      rw [processHierarchyDepth] at hproj
      rcases processHierarchyDepthGo_padding isA _ proj 0 _ rs (by decide) (by decide)
          hproj (r, d) hrd with ⟨h1, _, h3, h4⟩
      exact ⟨h1, h3, h4⟩

/-- C8 (witness): the padding conjunct applied to the three-node tree's
single output row, recorded at depth 0 — six real slots are forced blank. -/
theorem flatten_path_padded_witness :
    (⟨"1", ["P1", "", "", "", "", "", ""], "Active"⟩ : FlatRow).path.length = 7
    ∧ (0 : Nat) < 7
    ∧ (⟨"1", ["P1", "", "", "", "", "", ""], "Active"⟩ : FlatRow).path.drop (0 + 1)
        = List.replicate (6 - 0) "" :=
  flatten_path_padded_and_deep_tree_dropped.2.1 [treeC3] false
    ⟨"1", ["P1", "", "", "", "", "", ""], "Active"⟩ 0 (by decide)
